import Mathlib

/-!
Verification of the inference-scheduling and result-reconciliation engine of
the Lookout-for-Equipment notebooks.

The embedding below translates, into Lean:
  * the result-aggregation cell of notebook 5 (download each SUCCESS
    execution output, evaluate every line, concatenate, build a
    timestamp-indexed sorted frame);
  * the await-first-execution polling loop of notebook 5;
  * the data-ingestion status polling loop of notebook 2;
  * calendar arithmetic and timestamp rendering used to reason about the
    input-filename timestamps the scheduler matches.
Components whose code lives outside the repository snapshot (the
LookoutEquipmentScheduler wrapper class and the remote file-matching logic)
are modelled from the specification text, and are marked as such in their
doc comments.
-/

namespace L4E

/-! ## Calendar arithmetic

Proleptic Gregorian calendar, used to turn wall-clock timestamps such as
2021-01-27T09:15:00 into absolute minute counts and back, and to render the
yyyyMMddHHmmss filename timestamps that the scheduler matches. The
day-counting formulas are the standard civil-from-days / days-from-civil
integer algorithms, specialised to `Nat` (all dates of interest are CE). -/

/-- Days since 0000-03-01 of the civil date (y, m, d), proleptic Gregorian. -/
def daysFromCivil (y m d : Nat) : Nat :=
  let y' := if m ≤ 2 then y - 1 else y
  let era := y' / 400
  let yoe := y' % 400
  let mp  := if 2 < m then m - 3 else m + 9
  let doy := (153 * mp + 2) / 5 + (d - 1)
  let doe := yoe * 365 + yoe / 4 - yoe / 100 + doy
  era * 146097 + doe

/-- Civil date (y, m, d) of a day count as produced by `daysFromCivil`. -/
def civilFromDays (z : Nat) : Nat × Nat × Nat :=
  let era := z / 146097
  let doe := z % 146097
  let yoe := (doe - doe / 1460 + doe / 36524 - doe / 146096) / 365
  let y   := yoe + era * 400
  let doy := doe - (365 * yoe + yoe / 4 - yoe / 100)
  let mp  := (5 * doy + 2) / 153
  let d   := doy - (153 * mp + 2) / 5 + 1
  let m   := if mp < 10 then mp + 3 else mp - 9
  (if m ≤ 2 then y + 1 else y, m, d)

/-- A wall-clock timestamp broken into components (seconds are always zero
for the scheduler timestamps considered here). -/
structure DT where
  year   : Nat
  month  : Nat
  day    : Nat
  hour   : Nat
  minute : Nat
deriving Repr, DecidableEq

/-- Absolute minute count of a wall-clock timestamp. -/
def toMinutes (y m d hh mm : Nat) : Nat :=
  daysFromCivil y m d * 1440 + hh * 60 + mm

/-- Wall-clock components of an absolute minute count. -/
def ofMinutes (t : Nat) : DT :=
  let c := civilFromDays (t / 1440)
  { year := c.1, month := c.2.1, day := c.2.2
    hour := t % 1440 / 60, minute := t % 60 }

/-- Zero-padded two-digit decimal rendering. -/
def pad2 (n : Nat) : String :=
  if n < 10 then "0" ++ toString n else toString n

/-- Zero-padded four-digit decimal rendering. -/
def pad4 (n : Nat) : String :=
  if n < 10 then "000" ++ toString n
  else if n < 100 then "00" ++ toString n
  else if n < 1000 then "0" ++ toString n
  else toString n

/-- The yyyyMMddHHmmss timestamp format used in input filenames. -/
def formatYyyyMMddHHmmss (t : DT) : String :=
  pad4 t.year ++ pad2 t.month ++ pad2 t.day ++ pad2 t.hour ++ pad2 t.minute ++ "00"

/-! ## Time & Filename Resolver

Modelled from the spec: the file-matching logic runs inside the remote
scheduling service; the repository only describes it (notebook 5, cell 24:
at fire time 2021-01-27 09:15 the file stamped 20210127091000 is found and
the file stamped 20210127081500 is not). The spec states the contract: the
expected input data window is [T - upload_frequency, T) and the filename
timestamp is T - upload_frequency, rendered in local time using the
timezone offset. -/

/-- Modelled from the spec: the expected input data window
[T - upload_frequency, T) of a run fired at time T (minutes). -/
def dataWindow (fireTime freqMin : Nat) : Nat × Nat :=
  (fireTime - freqMin, fireTime)

/-- Modelled from the spec: the filename timestamp a run fired at UTC time
T expects, in minutes: T - upload_frequency, shifted into local time by the
timezone offset (minutes, signed). -/
def expectedFilenameMinutes (fireTimeUtc freqMin : Nat) (tzOffsetMin : Int) : Nat :=
  (((fireTimeUtc : Int) - (freqMin : Int)) + tzOffsetMin).toNat

/-- Modelled from the spec: the expected input object key of a run, built as
component, delimiter, rendered timestamp, ".csv". -/
def expectedInputKey (fireTimeUtc freqMin : Nat) (tzOffsetMin : Int)
    (component delim : String) : String :=
  component ++ delim ++
    formatYyyyMMddHHmmss (ofMinutes (expectedFilenameMinutes fireTimeUtc freqMin tzOffsetMin)) ++
    ".csv"

/-- Modelled from the spec: a run fired at UTC time T matches exactly the
file whose embedded timestamp equals the expected filename timestamp
(cell-24 narrative: a single CSV file stamped with the previous step). -/
def matchesRun (fireTimeUtc freqMin : Nat) (tzOffsetMin : Int) (fileTsMin : Nat) : Bool :=
  fileTsMin == expectedFilenameMinutes fireTimeUtc freqMin tzOffsetMin

/-! ## Schedule Lifecycle Controller

Modelled from the spec: the LookoutEquipmentScheduler wrapper class lives in
a utils module outside the repository snapshot; notebook 5 documents that
CreateInferenceScheduler creates a scheduler and starts it, that only a
stopped scheduler may be deleted, and that only one scheduler may exist per
model. -/

/-- Lifecycle states of the (single) schedule attached to a model. -/
inductive ScheduleState where
  | uncreated
  | running
  | stopped
  | deleted
deriving Repr, DecidableEq

/-- Lifecycle precondition failures surfaced by the controller. -/
inductive LifecycleError where
  | alreadyExists
  | invalidState
deriving Repr, DecidableEq

namespace Scheduler

/-- Modelled from the spec: create makes the remote schedule and starts it
at once (billing and execution begin on creation); it fails with
AlreadyExists when a schedule for this model already exists. -/
def create : ScheduleState → Except LifecycleError ScheduleState
  | .uncreated => .ok .running
  | _ => .error .alreadyExists

/-- Modelled from the spec: stop is only legal on a running schedule. -/
def stop : ScheduleState → Except LifecycleError ScheduleState
  | .running => .ok .stopped
  | _ => .error .invalidState

/-- Modelled from the spec: start is only legal on a stopped schedule. -/
def start : ScheduleState → Except LifecycleError ScheduleState
  | .stopped => .ok .running
  | _ => .error .invalidState

/-- Modelled from the spec: delete is only legal on a stopped schedule;
in particular deleting a running schedule fails with InvalidState. -/
def delete : ScheduleState → Except LifecycleError ScheduleState
  | .stopped => .ok .deleted
  | _ => .error .invalidState

end Scheduler

/-! ## Execution summaries and the Execution Poller -/

/-- Status of one inference execution. -/
inductive ExecStatus where
  | inProgress
  | success
  | failed
deriving Repr, DecidableEq

/-- One entry of the ListInferenceExecutions response: schedule name,
scheduled fire time (minutes), status, and the output object location
(bucket and key, meaningful when the status is success). -/
structure ExecutionSummary where
  scheduleName : String
  fireTime : Nat
  status : ExecStatus
  bucket : String
  key : String
deriving Repr, DecidableEq

deriving instance DecidableEq for Except

/-- The await-first-result loop of notebook 5 (cell 22): call list with the
same filters, and while the result is empty print a wait message, sleep 60
seconds and try again; break as soon as the result is non-empty. `polls i`
is the response of the i-th list call; the result carries the returned
summaries together with the number of sleeps performed (one after each
empty response). `fuel` bounds the recursion only: the source loop has no
such bound. -/
def pollLoop (polls : Nat → List ExecutionSummary) : Nat → Nat → Option (List ExecutionSummary × Nat)
  | _, 0 => none
  | i, fuel + 1 =>
    if polls i = [] then pollLoop polls (i + 1) fuel
    else some (polls i, i)

/-- Ordering of execution summaries by scheduled fire time. -/
def byFireTime (a b : ExecutionSummary) : Prop :=
  a.fireTime ≤ b.fireTime

instance : DecidableRel byFireTime :=
  fun a b => inferInstanceAs (Decidable (a.fireTime ≤ b.fireTime))

instance : IsTotal ExecutionSummary byFireTime :=
  ⟨fun a b => Nat.le_total a.fireTime b.fireTime⟩

instance : IsTrans ExecutionSummary byFireTime :=
  ⟨fun _ _ _ h1 h2 => Nat.le_trans h1 h2⟩

/-- Filters accepted by list_inference_executions: schedule name, optional
time range, optional status. -/
structure ExecutionFilters where
  scheduleName : String
  startTime : Option Nat
  endTime : Option Nat
  status : Option ExecStatus
deriving Repr, DecidableEq

/-- Whether a summary passes the given filters. -/
def matchesFilters (f : ExecutionFilters) (s : ExecutionSummary) : Bool :=
  s.scheduleName == f.scheduleName
    && (match f.startTime with
        | some t => decide (t ≤ s.fireTime)
        | none => true)
    && (match f.endTime with
        | some t => decide (s.fireTime ≤ t)
        | none => true)
    && (match f.status with
        | some st => s.status == st
        | none => true)

/-- Modelled from the spec: list_inference_executions (a utils-module
wrapper outside the repository snapshot) is a pure query of the remote
state: it returns the summaries passing the filters, ordered by fire time
ascending. -/
def listInferenceExecutions (remote : List ExecutionSummary) (f : ExecutionFilters) :
    List ExecutionSummary :=
  List.insertionSort byFireTime (remote.filter (matchesFilters f))

/-- Modelled from the spec: the scheduler object accumulates execution
summaries keyed by fire time; a freshly listed summary is appended only
when no accumulated summary carries the same fire time. -/
def insertSummary (acc : List ExecutionSummary) (s : ExecutionSummary) : List ExecutionSummary :=
  if acc.any (fun a => a.fireTime == s.fireTime) then acc else acc ++ [s]

/-- Modelled from the spec: refreshing the locally accumulated view merges
the freshly listed summaries into the accumulator, keyed by fire time. -/
def refreshSummaries (acc fresh : List ExecutionSummary) : List ExecutionSummary :=
  fresh.foldl insertSummary acc

/-! ## Result Aggregator

Translation of the aggregation cell of notebook 5 (cell 28): for each
accumulated summary with status SUCCESS, download the output object, read
it line by line, evaluate every line as a Python expression and concatenate
the resulting values into results_json; afterwards build a dataframe from
results_json, convert its timestamp column, set it as the index and sort.
A Python value is an arbitrary expression result; a line of a downloaded
file either is a syntactically valid expression (carrying its value) or
fails to evaluate, which raises and aborts the cell. -/

/-- The value of a Python expression, as produced by evaluating one line of
a results file. -/
inductive PyValue where
  | pyNone
  | pyBool (b : Bool)
  | pyInt (n : Int)
  | pyStr (s : String)
  | pyList (xs : List PyValue)
  | pyDict (kvs : List (String × PyValue))

/-- One line of a downloaded results file: either a syntactically valid
Python expression together with its value, or a line on which eval raises. -/
inductive Line where
  | expr (v : PyValue)
  | invalid (raw : String)

/-- Failures of the aggregation cell. `syntaxError` is the error eval
raises on an invalid line; `timelineKeyError` is the failure of the
dataframe timestamp conversion; `malformedResult` and
`inconsistentTimeline` are the error values the spec prescribes (the code
never produces them). -/
inductive AggError where
  | syntaxError (raw : String)
  | timelineKeyError
  | malformedResult
  | inconsistentTimeline

/-- eval of one line: the value of a valid expression, whatever its shape;
an exception on an invalid line. -/
def evalLine : Line → Except AggError PyValue
  | .expr v => .ok v
  | .invalid raw => .error (.syntaxError raw)

/-- The list comprehension evaluating every line of a file: the first
invalid line raises and discards the whole file (no partial list). -/
def evalLines : List Line → Except AggError (List PyValue)
  | [] => .ok []
  | l :: rest =>
    match evalLine l with
    | .error e => .error e
    | .ok v => (evalLines rest).map (fun vs => v :: vs)

/-- Object storage: the lines of the object at (bucket, key). -/
def Storage := String → String → List Line

/-- The aggregation loop over the accumulated summaries: a SUCCESS summary
has its output object fetched and evaluated, and its values appended to
the accumulated results; other statuses are skipped; an eval exception
aborts the whole loop. -/
def aggregatePass (storage : Storage) : List ExecutionSummary → Except AggError (List PyValue)
  | [] => .ok []
  | s :: rest =>
    if s.status == .success then
      match evalLines (storage s.bucket s.key) with
      | .error e => .error e
      | .ok content => (aggregatePass storage rest).map (fun r => content ++ r)
    else aggregatePass storage rest

/-- The object keys a run of the aggregation cell downloads: one download
per summary with status SUCCESS, in order. -/
def processedKeysOfPass (summaries : List ExecutionSummary) : List String :=
  (summaries.filter (fun s => s.status == .success)).map (fun s => s.key)

/-- Value of a decimal digit character (code points 48 through 57). -/
def digitVal (c : Char) : Option Nat :=
  if 48 ≤ c.toNat && c.toNat ≤ 57 then some (c.toNat - 48) else none

/-- Decimal value of a digit sequence; none on any non-digit. -/
def natOfChars : List Char → Nat → Option Nat
  | [], acc => some acc
  | c :: cs, acc =>
    match digitVal c with
    | some d => natOfChars cs (acc * 10 + d)
    | none => none

/-- Decimal value of a non-empty digit sequence. -/
def parseDigits (cs : List Char) : Option Nat :=
  match cs with
  | [] => none
  | _ => natOfChars cs 0

/-- Minutes-since-epoch of an ISO timestamp string of the shape
yyyy-MM-ddTHH:mm:ss(.ffffff), the format of the timestamp field of result
records; models the dataframe timestamp conversion (sub-minute digits are
dropped, as every scheduler timestamp here is minute-aligned). -/
def parseIsoMinutes (s : String) : Option Nat :=
  let cs := s.toList
  match parseDigits (cs.take 4), parseDigits ((cs.drop 5).take 2),
      parseDigits ((cs.drop 8).take 2), parseDigits ((cs.drop 11).take 2),
      parseDigits ((cs.drop 14).take 2) with
  | some y, some mo, some d, some hh, some mi => some (toMinutes y mo d hh mi)
  | _, _, _, _, _ => none

/-- Field access in a dict value. -/
def lookupField (kvs : List (String × PyValue)) (name : String) : Option PyValue :=
  match kvs.find? (fun kv => kv.1 == name) with
  | some kv => some kv.2
  | none => none

/-- The timestamp key of a record, when the record is a dict whose
timestamp field is a parseable ISO string; none otherwise (in which case
the dataframe timestamp conversion fails). -/
def tsOf (v : PyValue) : Option Nat :=
  match v with
  | .pyDict kvs =>
    match lookupField kvs "timestamp" with
    | some (.pyStr s) => parseIsoMinutes s
    | _ => none
  | _ => none

/-- The timestamp-indexed frame: records keyed by timestamp minutes. -/
def Timeline := List (Nat × PyValue)

/-- Ordering of keyed records by timestamp. -/
def byTs (a b : Nat × PyValue) : Prop :=
  a.1 ≤ b.1

instance : DecidableRel byTs :=
  fun a b => inferInstanceAs (Decidable (a.1 ≤ b.1))

instance : IsTotal (Nat × PyValue) byTs :=
  ⟨fun a b => Nat.le_total a.1 b.1⟩

instance : IsTrans (Nat × PyValue) byTs :=
  ⟨fun _ _ _ h1 h2 => Nat.le_trans h1 h2⟩

/-- Keying every record by its timestamp, as the dataframe timestamp
conversion does; the first record without a usable timestamp fails the
conversion. -/
def keyRecords : List PyValue → Option (List (Nat × PyValue))
  | [] => some []
  | r :: rest =>
    match tsOf r with
    | some t => (keyRecords rest).map (fun ys => (t, r) :: ys)
    | none => none

/-- set_index plus sort_index: key all records by timestamp and sort
ascending (duplicate keys are allowed and retained by pandas). -/
def buildTimeline (records : List PyValue) : Except AggError Timeline :=
  match keyRecords records with
  | some keyed => .ok (List.insertionSort byTs keyed)
  | none => .error .timelineKeyError

/-- The whole aggregation cell: run the aggregation loop, then build the
sorted timestamp-indexed frame from the accumulated results. -/
def runAggregationCell (storage : Storage) (summaries : List ExecutionSummary) :
    Except AggError Timeline :=
  match aggregatePass storage summaries with
  | .ok records => buildTimeline records
  | .error e => .error e

/-! ## Ingestion Job Controller

Translation of the ingestion polling cell of notebook 2: print the initial
status with a timestamp, then while the status is IN_PROGRESS sleep 60
seconds, call DescribeDataIngestionJob, and print the new status with a
timestamp; the loop ends at the first status other than IN_PROGRESS and
never calls StartDataIngestionJob. -/

/-- Status of a data ingestion job. -/
inductive IngStatus where
  | inProgress
  | success
  | failed
deriving Repr, DecidableEq

/-- Remote calls the polling cell can make. -/
inductive RemoteCall where
  | describeJob (i : Nat)
  | startJob
deriving Repr, DecidableEq

/-- Observable outcome of the polling cell: the printed status lines (each
a pair of elapsed seconds and status), the final status, and the remote
calls made. -/
structure IngestionPollResult where
  log : List (Nat × IngStatus)
  finalStatus : IngStatus
  calls : List RemoteCall
deriving Repr, DecidableEq

/-- The while loop of the polling cell. `describe i` is the status the
i-th DescribeDataIngestionJob call reports; `fuel` bounds the recursion
only. Each iteration sleeps 60 seconds, describes the job once and prints
one timestamped status line. -/
def ingestLoop (describe : Nat → IngStatus) :
    IngStatus → Nat → Nat → Option IngestionPollResult
  | st, _, 0 => if st = .inProgress then none else some ⟨[], st, []⟩
  | st, i, fuel + 1 =>
    if st = .inProgress then
      match ingestLoop describe (describe i) (i + 1) fuel with
      | some res =>
          some ⟨(60 * (i + 1), describe i) :: res.log, res.finalStatus,
                .describeJob i :: res.calls⟩
      | none => none
    else some ⟨[], st, []⟩

/-- The polling cell: print the initial status at elapsed time 0, then run
the while loop. -/
def pollDataIngestion (describe : Nat → IngStatus) (init : IngStatus) (fuel : Nat) :
    Option IngestionPollResult :=
  (ingestLoop describe init 0 fuel).map
    (fun r => ⟨(0, init) :: r.log, r.finalStatus, r.calls⟩)

/-! ## Concrete instances

Summaries, storage contents and status streams used to instantiate the
theorems at concrete inputs. -/

/-- A concrete successful execution summary. -/
def demoSummary : ExecutionSummary :=
  ⟨"sched", toMinutes 2021 1 27 9 15, .success, "demo-bucket", "output/20210127091500/results.jsonl"⟩

/-- A poll-response stream whose second response is the first non-empty one. -/
def demoPolls : Nat → List ExecutionSummary :=
  fun n => if n = 1 then [demoSummary] else []

/-- ISO timestamp shared by two colliding records. -/
def isoT3 : String := "2021-04-07T20:00:00.000000"

/-- A record reporting timestamp `isoT3`. -/
def r31 : PyValue := .pyDict [("timestamp", .pyStr isoT3), ("prediction", .pyInt 0)]

/-- A second, distinct record reporting the same timestamp `isoT3`. -/
def r32 : PyValue := .pyDict [("timestamp", .pyStr isoT3), ("prediction", .pyInt 1)]

/-- Execution whose output holds `r31`. -/
def d31 : ExecutionSummary := ⟨"sched", 100, .success, "demo-bucket", "results-key-1"⟩

/-- Execution whose output holds `r32`. -/
def d32 : ExecutionSummary := ⟨"sched", 105, .success, "demo-bucket", "results-key-2"⟩

/-- Storage for the timestamp-collision scenario. -/
def demoStorage3 : Storage := fun _ key =>
  if key = "results-key-1" then [.expr r31]
  else if key = "results-key-2" then [.expr r32]
  else []

/-- The minute key both colliding records map to. -/
def demoT3 : Nat := toMinutes 2021 4 7 20 0

/-- A record stamped 2021-04-07T20:00. -/
def r41 : PyValue :=
  .pyDict [("timestamp", .pyStr "2021-04-07T20:00:00.000000"), ("prediction", .pyInt 0)]

/-- A record stamped 2021-04-07T20:05 (disjoint from `r41`). -/
def r42 : PyValue :=
  .pyDict [("timestamp", .pyStr "2021-04-07T20:05:00.000000"), ("prediction", .pyInt 1)]

/-- Execution whose output holds `r41`. -/
def s41 : ExecutionSummary := ⟨"sched", 100, .success, "demo-bucket", "results-key-41"⟩

/-- Execution whose output holds `r42`. -/
def s42 : ExecutionSummary := ⟨"sched", 105, .success, "demo-bucket", "results-key-42"⟩

/-- Storage for the disjoint-timestamps scenario. -/
def demoStorage4 : Storage := fun _ key =>
  if key = "results-key-41" then [.expr r41]
  else if key = "results-key-42" then [.expr r42]
  else []

/-- Execution whose output holds a line that fails to evaluate. -/
def bad7 : ExecutionSummary := ⟨"sched", 100, .success, "demo-bucket", "bad-key"⟩

/-- Execution whose output is well formed. -/
def good7 : ExecutionSummary := ⟨"sched", 105, .success, "demo-bucket", "good-key"⟩

/-- Storage for the malformed-line scenario: the bad object holds one good
record followed by an invalid line; the good object holds one record. -/
def demoStorage7 : Storage := fun _ key =>
  if key = "bad-key" then [.expr r41, .invalid "oops"]
  else if key = "good-key" then [.expr r42]
  else []

/-- A successful execution observed across two aggregation passes. -/
def e8 : ExecutionSummary := ⟨"sched", 200, .success, "demo-bucket", "results-key-8"⟩

/-- Execution whose output line is a bare integer expression. -/
def exec10 : ExecutionSummary := ⟨"sched", 300, .success, "demo-bucket", "weird-key"⟩

/-- Storage whose only object holds the single line `42`: a syntactically
valid Python expression that is not JSON and has no record shape. -/
def demoStorage10 : Storage := fun _ key =>
  if key = "weird-key" then [.expr (.pyInt 42)] else []

/-- A describe stream that reports IN_PROGRESS twice and then SUCCESS. -/
def describe9 : Nat → IngStatus :=
  fun i => if 2 ≤ i then .success else .inProgress

/-- The observable outcome of polling `describe9` from IN_PROGRESS. -/
def res9 : IngestionPollResult :=
  ⟨[(0, .inProgress), (60, .inProgress), (120, .inProgress), (180, .success)], .success,
   [.describeJob 0, .describeJob 1, .describeJob 2]⟩

/-! ## Theorems -/

/-- C1: for every valid configuration and fire time T the expected filename
timestamp is T minus upload_frequency (the start of the previous data
window), never T itself; concretely, at fire time 2021-01-27T09:15:00Z with
upload frequency PT5M the expected filename timestamp renders per
yyyyMMddHHmmss as 20210127091000, and a file stamped 20210127081500 is not
matched by that run. -/
theorem c1_filename_timestamp :
    (∀ fireTime freqMin : Nat, freqMin ≤ fireTime →
        expectedFilenameMinutes fireTime freqMin 0 = (dataWindow fireTime freqMin).1 ∧
        (0 < freqMin → expectedFilenameMinutes fireTime freqMin 0 ≠ fireTime)) ∧
    expectedFilenameMinutes (toMinutes 2021 1 27 9 15) 5 0 = toMinutes 2021 1 27 9 10 ∧
    formatYyyyMMddHHmmss (ofMinutes (expectedFilenameMinutes (toMinutes 2021 1 27 9 15) 5 0))
      = "20210127091000" ∧
    matchesRun (toMinutes 2021 1 27 9 15) 5 0 (toMinutes 2021 1 27 8 15) = false := by
  refine ⟨?_, by decide, by decide, by decide⟩
  intro T f hfT
  have hvalue : expectedFilenameMinutes T f 0 = T - f := by
    unfold expectedFilenameMinutes
    omega
  refine ⟨by simpa [dataWindow] using hvalue, fun hf => ?_⟩
  rw [hvalue]
  exact Nat.ne_of_lt (Nat.sub_lt (Nat.lt_of_lt_of_le hf hfT) hf)

/-- Witness for C1 at fire time 2021-01-27T09:15:00Z with PT5M. -/
theorem c1_filename_timestamp_witness :
    expectedFilenameMinutes (toMinutes 2021 1 27 9 15) 5 0
        = (dataWindow (toMinutes 2021 1 27 9 15) 5).1 ∧
    expectedFilenameMinutes (toMinutes 2021 1 27 9 15) 5 0 ≠ toMinutes 2021 1 27 9 15 := by
  have h := c1_filename_timestamp.1 (toMinutes 2021 1 27 9 15) 5 (by decide)
  exact ⟨h.1, h.2 (by decide)⟩

/-- C2: the lifecycle controller realises exactly the state machine
UNCREATED --create--> RUNNING, RUNNING --stop--> STOPPED,
STOPPED --start--> RUNNING, STOPPED --delete--> DELETED; create on an
uncreated schedule yields RUNNING at once, a second create fails with
AlreadyExists, delete from RUNNING fails with InvalidState, and stop then
delete yields DELETED. -/
theorem c2_schedule_lifecycle :
    (∀ s t, Scheduler.create s = .ok t ↔ (s = .uncreated ∧ t = .running)) ∧
    (∀ s t, Scheduler.stop s = .ok t ↔ (s = .running ∧ t = .stopped)) ∧
    (∀ s t, Scheduler.start s = .ok t ↔ (s = .stopped ∧ t = .running)) ∧
    (∀ s t, Scheduler.delete s = .ok t ↔ (s = .stopped ∧ t = .deleted)) ∧
    Scheduler.create .uncreated = .ok .running ∧
    Scheduler.create .running = .error .alreadyExists ∧
    Scheduler.delete .running = .error .invalidState ∧
    (Scheduler.stop .running).bind Scheduler.delete = .ok .deleted := by
  refine ⟨?_, ?_, ?_, ?_, rfl, rfl, rfl, rfl⟩ <;>
    intro s t <;> cases s <;> cases t <;> simp [Scheduler.create, Scheduler.stop,
      Scheduler.start, Scheduler.delete]

/-- Any successful run of the await-first-result loop returns the first
non-empty poll response, having slept once after each of the empty
responses before it. -/
theorem pollLoop_sound (polls : Nat → List ExecutionSummary) :
    ∀ fuel i r, pollLoop polls i fuel = some r →
      r.1 = polls r.2 ∧ polls r.2 ≠ [] ∧ i ≤ r.2 ∧
      ∀ m, i ≤ m → m < r.2 → polls m = [] := by
  intro fuel
  induction fuel with
  | zero => intro i r h; simp [pollLoop] at h
  | succ n ih =>
    intro i r h
    by_cases hp : polls i = []
    · have h' : pollLoop polls (i + 1) n = some r := by
        simpa [pollLoop, hp] using h
      obtain ⟨h1, h2, h3, h4⟩ := ih (i + 1) r h'
      refine ⟨h1, h2, Nat.le_of_succ_le h3, fun m him hm => ?_⟩
      rcases Nat.eq_or_lt_of_le him with heq | hlt
      · exact heq ▸ hp
      · exact h4 m hlt hm
    · have hr : some (polls i, i) = some r := by
        simpa [pollLoop, hp] using h
      obtain rfl : (polls i, i) = r := Option.some.inj hr
      exact ⟨rfl, hp, Nat.le_refl i,
        fun m him hm => absurd (Nat.lt_of_le_of_lt him hm) (Nat.lt_irrefl i)⟩

/-- If some poll response is non-empty, the loop terminates with enough
fuel. -/
theorem pollLoop_finds (polls : Nat → List ExecutionSummary) :
    ∀ k i, polls (i + k) ≠ [] → ∃ r, pollLoop polls i (k + 1) = some r := by
  intro k
  induction k with
  | zero =>
    intro i h
    exact ⟨(polls i, i), by simp [pollLoop, show polls i ≠ [] by simpa using h]⟩
  | succ n ih =>
    intro i h
    by_cases hp : polls i = []
    · obtain ⟨r, hr⟩ := ih (i + 1) (by rw [show i + 1 + n = i + (n + 1) by omega]; exact h)
      refine ⟨r, ?_⟩
      show (if polls i = [] then pollLoop polls (i + 1) (n + 1) else some (polls i, i)) = some r
      rw [if_pos hp]
      exact hr
    · exact ⟨(polls i, i), by simp [pollLoop, hp]⟩

/-- C5: the await-first-result loop repeatedly calls list with the same
filters, sleeps a fixed interval after each empty response, and returns as
soon as at least one summary is returned; it has no timeout, so it
terminates (under some fuel bound) exactly when some poll response is
non-empty, and on exit the returned sequence is non-empty and is the first
non-empty response (the sleep count being the number of empty responses
before it). -/
theorem c5_await_first_result (polls : Nat → List ExecutionSummary) :
    ((∃ fuel r, pollLoop polls 0 fuel = some r) ↔ (∃ n, polls n ≠ [])) ∧
    (∀ fuel r, pollLoop polls 0 fuel = some r →
      r.1 ≠ [] ∧ r.1 = polls r.2 ∧ (∀ m, m < r.2 → polls m = [])) := by
  constructor
  · constructor
    · rintro ⟨fuel, r, hr⟩
      obtain ⟨_, h2, _, _⟩ := pollLoop_sound polls fuel 0 r hr
      exact ⟨r.2, h2⟩
    · rintro ⟨n, hn⟩
      obtain ⟨r, hr⟩ := pollLoop_finds polls n 0 (by simpa using hn)
      exact ⟨n + 1, r, hr⟩
  · intro fuel r hr
    obtain ⟨h1, h2, _, h4⟩ := pollLoop_sound polls fuel 0 r hr
    exact ⟨h1 ▸ h2, h1, fun m hm => h4 m (Nat.zero_le m) hm⟩

/-- Witness for C5 on a stream whose second response is non-empty. -/
theorem c5_await_first_result_witness :
    (∃ fuel r, pollLoop demoPolls 0 fuel = some r) ∧
    (([demoSummary], 1) : List ExecutionSummary × Nat).1 ≠ [] ∧
    (([demoSummary], 1) : List ExecutionSummary × Nat).1 = demoPolls 1 ∧
    (∀ m, m < 1 → demoPolls m = []) := by
  have h := c5_await_first_result demoPolls
  refine ⟨h.1.mpr ⟨1, by decide⟩, ?_⟩
  exact h.2 2 ([demoSummary], 1) (by decide)

/-- C6: list with identical filters against unchanged remote state returns
the same ordered sequence twice, that sequence is ordered by fire time
ascending, and it holds exactly the summaries passing the filters. -/
theorem c6_list_idempotent_sorted (remote : List ExecutionSummary) (f : ExecutionFilters) :
    listInferenceExecutions remote f = listInferenceExecutions remote f ∧
    List.Sorted byFireTime (listInferenceExecutions remote f) ∧
    List.Perm (listInferenceExecutions remote f) (remote.filter (matchesFilters f)) :=
  ⟨rfl, List.sorted_insertionSort byFireTime _, List.perm_insertionSort byFireTime _⟩

/-- Evaluating the lines of a file preserves the line count. -/
theorem evalLines_length (lines : List Line) (vs : List PyValue)
    (h : evalLines lines = .ok vs) : vs.length = lines.length := by
  induction lines generalizing vs with
  | nil =>
    simp only [evalLines] at h
    cases h
    rfl
  | cons l rest ih =>
    cases l with
    | invalid raw => simp [evalLines, evalLine] at h
    | expr v =>
      simp only [evalLines, evalLine] at h
      cases hrest : evalLines rest with
      | error e => rw [hrest] at h; simp [Except.map] at h
      | ok vs' =>
        rw [hrest] at h
        simp only [Except.map] at h
        cases h
        simp [ih vs' hrest]

/-- An invalid line anywhere in a file makes the whole evaluation raise:
no partial list of values survives. -/
theorem evalLines_error_of_invalid (lines : List Line) (raw : String)
    (h : Line.invalid raw ∈ lines) : ∃ e, evalLines lines = .error e := by
  induction lines with
  | nil => cases h
  | cons l rest ih =>
    cases l with
    | invalid raw2 => exact ⟨.syntaxError raw2, rfl⟩
    | expr v =>
      rcases List.mem_cons.mp h with h1 | h2
      · cases h1
      · obtain ⟨e, he⟩ := ih h2
        exact ⟨e, by simp [evalLines, evalLine, he, Except.map]⟩

/-- When every record carries a usable timestamp, keying succeeds and the
keyed sequence carries exactly the original records. -/
theorem keyRecords_ok (records : List PyValue) (h : ∀ r ∈ records, (tsOf r).isSome) :
    ∃ ys, keyRecords records = some ys ∧ ys.map Prod.snd = records := by
  induction records with
  | nil => exact ⟨[], rfl, rfl⟩
  | cons r rest ih =>
    obtain ⟨t, ht⟩ := Option.isSome_iff_exists.mp (h r (List.mem_cons_self r rest))
    obtain ⟨ys, hys, hmap⟩ := ih (fun x hx => h x (List.mem_cons_of_mem r hx))
    exact ⟨(t, r) :: ys, by simp [keyRecords, ht, hys], by simp [hmap]⟩

/-- When every record carries a usable timestamp, the timeline build
succeeds, keeps every record (duplicate timestamps included) and sorts by
timestamp ascending. -/
theorem buildTimeline_ok (records : List PyValue) (h : ∀ r ∈ records, (tsOf r).isSome) :
    ∃ tl, buildTimeline records = .ok tl ∧ tl.length = records.length ∧
      List.Sorted byTs tl ∧ List.Perm (tl.map Prod.snd) records := by
  obtain ⟨ys, hys, hmap⟩ := keyRecords_ok records h
  refine ⟨List.insertionSort byTs ys, by simp [buildTimeline, hys], ?_,
    List.sorted_insertionSort byTs ys, ?_⟩
  · rw [(List.perm_insertionSort byTs ys).length_eq, ← hmap, List.length_map]
  · exact hmap ▸ ((List.perm_insertionSort byTs ys).map Prod.snd)

/-- C3 counterexample: aggregating two executions that report the same
timestamp raises no error at all: the run returns a timeline holding both
colliding records, instead of the InconsistentTimeline failure the claim
prescribes. -/
theorem c3_counterexample :
    runAggregationCell demoStorage3 [d31, d32] = .ok [(demoT3, r31), (demoT3, r32)] ∧
    ∀ e, runAggregationCell demoStorage3 [d31, d32] ≠ .error e := by
  have hok : runAggregationCell demoStorage3 [d31, d32]
      = .ok [(demoT3, r31), (demoT3, r32)] := by rfl
  exact ⟨hok, fun e h => by rw [hok] at h; exact Except.noConfusion h⟩

/-- C3 amended: a timestamp collision is kept silently: whenever every
record carries a usable timestamp the timeline build succeeds, and all
records — duplicated timestamps included — are retained (nothing is
overwritten and no error is raised). -/
theorem c3_collision_kept (records : List PyValue)
    (h : ∀ r ∈ records, (tsOf r).isSome) :
    ∃ tl, buildTimeline records = .ok tl ∧ tl.length = records.length ∧
      List.Perm (tl.map Prod.snd) records := by
  obtain ⟨tl, h1, h2, _, h4⟩ := buildTimeline_ok records h
  exact ⟨tl, h1, h2, h4⟩

/-- Witness for C3 (amended) on the two records sharing timestamp isoT3. -/
theorem c3_collision_kept_witness :
    ∃ tl, buildTimeline [r31, r32] = .ok tl ∧
      tl.length = ([r31, r32] : List PyValue).length ∧
      List.Perm (tl.map Prod.snd) [r31, r32] :=
  c3_collision_kept [r31, r32] (by
    intro r hr
    rcases List.mem_cons.mp hr with h1 | h2
    · subst h1; rfl
    · obtain rfl := List.mem_singleton.mp h2; rfl)

/-- C4: merging two successful executions whose outputs hold pairwise
disjoint timestamps into an empty timeline yields a timeline whose size is
the sum of the two record counts, ordered ascending by timestamp (and
holding exactly the input records). -/
theorem c4_disjoint_merge (storage : Storage) (s1 s2 : ExecutionSummary)
    (rs1 rs2 : List PyValue)
    (h1 : s1.status = .success) (h2 : s2.status = .success)
    (e1 : evalLines (storage s1.bucket s1.key) = .ok rs1)
    (e2 : evalLines (storage s2.bucket s2.key) = .ok rs2)
    (hts : ∀ r ∈ rs1 ++ rs2, (tsOf r).isSome)
    (hdisj : ∀ r1 ∈ rs1, ∀ r2 ∈ rs2, tsOf r1 ≠ tsOf r2) :
    ∃ tl, runAggregationCell storage [s1, s2] = .ok tl ∧
      tl.length = rs1.length + rs2.length ∧
      List.Sorted byTs tl ∧
      List.Perm (tl.map Prod.snd) (rs1 ++ rs2) := by
  have hpass : aggregatePass storage [s1, s2] = .ok (rs1 ++ rs2) := by
    simp [aggregatePass, h1, h2, e1, e2, Except.map]
  obtain ⟨tl, hb, hlen, hsort, hperm⟩ := buildTimeline_ok (rs1 ++ rs2) hts
  refine ⟨tl, ?_, by simpa using hlen, hsort, hperm⟩
  simp [runAggregationCell, hpass, hb]

/-- Witness for C4 on two single-record executions five minutes apart. -/
theorem c4_disjoint_merge_witness :
    ∃ tl, runAggregationCell demoStorage4 [s41, s42] = .ok tl ∧
      tl.length = ([r41] : List PyValue).length + ([r42] : List PyValue).length ∧
      List.Sorted byTs tl ∧
      List.Perm (tl.map Prod.snd) ([r41] ++ [r42]) :=
  c4_disjoint_merge demoStorage4 s41 s42 [r41] [r42] rfl rfl rfl rfl
    (by
      intro r hr
      rcases List.mem_cons.mp hr with h1 | h2
      · subst h1; rfl
      · obtain rfl := List.mem_singleton.mp h2; rfl)
    (by
      intro r1 hr1 r2 hr2
      obtain rfl := List.mem_singleton.mp hr1
      obtain rfl := List.mem_singleton.mp hr2
      decide)

/-- The aggregation loop raises whenever some SUCCESS summary points at an
object holding an invalid line. -/
theorem aggregatePass_error_of_bad (storage : Storage) (summaries : List ExecutionSummary)
    (h : ∃ s ∈ summaries, s.status = .success ∧
      ∃ raw, Line.invalid raw ∈ storage s.bucket s.key) :
    ∃ e, aggregatePass storage summaries = .error e := by
  induction summaries with
  | nil =>
    obtain ⟨s, hs, _⟩ := h
    cases hs
  | cons s0 rest ih =>
    obtain ⟨s, hmem, hsucc, raw, hline⟩ := h
    rcases List.mem_cons.mp hmem with heq | hrest
    · subst heq
      obtain ⟨e, he⟩ := evalLines_error_of_invalid _ raw hline
      exact ⟨e, by simp [aggregatePass, hsucc, he]⟩
    · by_cases h0 : s0.status = .success
      · cases hev : evalLines (storage s0.bucket s0.key) with
        | error e => exact ⟨e, by simp [aggregatePass, h0, hev]⟩
        | ok content =>
          obtain ⟨e, he⟩ := ih ⟨s, hrest, hsucc, raw, hline⟩
          exact ⟨e, by simp [aggregatePass, h0, hev, he, Except.map]⟩
      · obtain ⟨e, he⟩ := ih ⟨s, hrest, hsucc, raw, hline⟩
        refine ⟨e, ?_⟩
        have hbeq : (s0.status == ExecStatus.success) = false := by
          simpa using h0
        simp [aggregatePass, hbeq, he]

/-- C7 counterexample: an execution output holding a malformed line makes
the whole aggregation cell raise the eval error: the well-formed record of
the same object is discarded, but so is every later execution — the pass
does not continue past the failure, and no timeline is produced. -/
theorem c7_counterexample :
    aggregatePass demoStorage7 [bad7, good7] = .error (.syntaxError "oops") ∧
    runAggregationCell demoStorage7 [bad7, good7] = .error (.syntaxError "oops") ∧
    evalLines (demoStorage7 bad7.bucket bad7.key) = .error (.syntaxError "oops") :=
  ⟨rfl, rfl, rfl⟩

/-- C7 amended: a malformed line fails that execution all-or-nothing (no
partial records survive the file), and the failure aborts the whole
aggregation run — the surfaced error is the eval error, not a
MalformedResult confined to that execution. -/
theorem c7_malformed_aborts_run (storage : Storage) (summaries : List ExecutionSummary)
    (h : ∃ s ∈ summaries, s.status = .success ∧
      ∃ raw, Line.invalid raw ∈ storage s.bucket s.key) :
    (∃ e, aggregatePass storage summaries = .error e ∧
      runAggregationCell storage summaries = .error e) ∧
    (∀ (lines : List Line) (raw : String), Line.invalid raw ∈ lines →
      ∃ e, evalLines lines = .error e) := by
  obtain ⟨e, he⟩ := aggregatePass_error_of_bad storage summaries h
  exact ⟨⟨e, he, by simp [runAggregationCell, he]⟩,
    fun lines raw hl => evalLines_error_of_invalid lines raw hl⟩

/-- Witness for C7 (amended) on the storage holding an invalid line. -/
theorem c7_malformed_aborts_run_witness :
    (∃ e, aggregatePass demoStorage7 [bad7, good7] = .error e ∧
      runAggregationCell demoStorage7 [bad7, good7] = .error e) ∧
    (∀ (lines : List Line) (raw : String), Line.invalid raw ∈ lines →
      ∃ e, evalLines lines = .error e) :=
  c7_malformed_aborts_run demoStorage7 [bad7, good7]
    ⟨bad7, List.mem_cons_self bad7 [good7], rfl, "oops", by
      show Line.invalid "oops" ∈ [Line.expr r41, Line.invalid "oops"]
      exact List.mem_cons_of_mem _ (List.mem_singleton.mpr rfl)⟩

/-- C10: every line that is a syntactically valid Python expression is
accepted by the per-line eval regardless of its value, and its value is
merged into the accumulated results with no shape validation: a bare
integer line — not JSON, not a record — flows through the aggregation
loop, even though it carries no timestamp field. -/
theorem c10_eval_accepts_any_expression :
    (∀ v : PyValue, evalLine (Line.expr v) = .ok v) ∧
    aggregatePass demoStorage10 [exec10] = .ok [PyValue.pyInt 42] ∧
    tsOf (PyValue.pyInt 42) = none :=
  ⟨fun _ => rfl, rfl, rfl⟩

/-- Inserting one summary into the accumulated view keeps fire times
duplicate-free. -/
theorem insertSummary_nodup (acc : List ExecutionSummary) (s : ExecutionSummary)
    (h : (acc.map (fun a => a.fireTime)).Nodup) :
    ((insertSummary acc s).map (fun a => a.fireTime)).Nodup := by
  unfold insertSummary
  split
  · exact h
  · rename_i hany
    rw [List.map_append, List.map_singleton, List.nodup_append]
    refine ⟨h, List.nodup_singleton _, ?_⟩
    intro t ht1 ht2
    obtain ⟨a, ha, rfl⟩ := List.mem_map.mp ht1
    rw [List.mem_singleton] at ht2
    exact hany (List.any_eq_true.mpr ⟨a, ha, by simp [ht2]⟩)

/-- Refreshing the accumulated view keeps fire times duplicate-free: the
repeated full-history queries never introduce duplicate summaries. -/
theorem refreshSummaries_nodup (fresh : List ExecutionSummary) :
    ∀ acc, (acc.map (fun a => a.fireTime)).Nodup →
      ((refreshSummaries acc fresh).map (fun a => a.fireTime)).Nodup := by
  induction fresh with
  | nil => intro acc h; exact h
  | cons s rest ih =>
    intro acc h
    exact ih (insertSummary acc s) (insertSummary_nodup acc s h)

/-- A successful aggregation pass contributes every SUCCESS file exactly
once: the record count equals the sum of the per-file line counts over the
SUCCESS summaries. -/
theorem aggregatePass_length (storage : Storage) (summaries : List ExecutionSummary)
    (records : List PyValue) (h : aggregatePass storage summaries = .ok records) :
    records.length = ((summaries.filter (fun s => s.status == .success)).map
      (fun s => (storage s.bucket s.key).length)).sum := by
  induction summaries generalizing records with
  | nil =>
    simp only [aggregatePass] at h
    cases h
    rfl
  | cons s rest ih =>
    by_cases hs : s.status = ExecStatus.success
    · have hbeq : (s.status == ExecStatus.success) = true := by simp [hs]
      simp only [aggregatePass, hbeq, if_pos] at h
      cases hev : evalLines (storage s.bucket s.key) with
      | error e => rw [hev] at h; simp at h
      | ok content =>
        rw [hev] at h
        cases hrest : aggregatePass storage rest with
        | error e => rw [hrest] at h; simp [Except.map] at h
        | ok rs =>
          rw [hrest] at h
          simp only [Except.map] at h
          cases h
          simp [List.filter_cons, hbeq, evalLines_length _ _ hev, ih rs hrest]
    · have hbeq : (s.status == ExecStatus.success) = false := by simpa using hs
      simp only [aggregatePass, hbeq, Bool.false_eq_true, if_false] at h
      simp [List.filter_cons, hbeq, ih records h]

/-- C8 counterexample: the accumulated view never duplicates a summary,
but a second run of the aggregation cell downloads and re-processes every
SUCCESS execution again: across two passes the object of e8 is fetched
twice, not once. -/
theorem c8_counterexample :
    refreshSummaries (refreshSummaries [] [e8]) [e8] = [e8] ∧
    (processedKeysOfPass [e8] ++ processedKeysOfPass [e8]).count e8.key = 2 ∧
    ¬ (processedKeysOfPass [e8] ++ processedKeysOfPass [e8]).count e8.key = 1 := by
  decide

/-- C8 amended: repeated refreshes keep the accumulated summaries
duplicate-free (keyed by fire time), and within any one aggregation pass
each SUCCESS execution contributes its records exactly once (the timeline
record count is the sum of the per-execution record counts) — but each new
pass rebuilds from scratch, re-fetching every SUCCESS execution rather
than skipping already aggregated ones. -/
theorem c8_no_duplicates (acc fresh : List ExecutionSummary) (storage : Storage)
    (summaries : List ExecutionSummary) (records : List PyValue)
    (hnodup : (acc.map (fun a => a.fireTime)).Nodup)
    (hok : aggregatePass storage summaries = .ok records) :
    ((refreshSummaries acc fresh).map (fun a => a.fireTime)).Nodup ∧
    records.length = ((summaries.filter (fun s => s.status == .success)).map
      (fun s => (storage s.bucket s.key).length)).sum :=
  ⟨refreshSummaries_nodup fresh acc hnodup,
   aggregatePass_length storage summaries records hok⟩

/-- Witness for C8 (amended) on a refresh of e8 and the two-execution
pass over demoStorage3. -/
theorem c8_no_duplicates_witness :
    ((refreshSummaries [] [e8]).map (fun a => a.fireTime)).Nodup ∧
    ([r31, r32] : List PyValue).length
      = ((([d31, d32].filter (fun s => s.status == .success)).map
          (fun s => (demoStorage3 s.bucket s.key).length)).sum) :=
  c8_no_duplicates [] [e8] demoStorage3 [d31, d32] [r31, r32] (by simp) rfl

/-- Invariants of the ingestion polling while loop, entered with status
`st` and describe-call index `i`: the final status is terminal, only
describe calls are made (one per printed line), every line but the last
reports IN_PROGRESS, the last line reports the final status, the loop body
runs at all exactly when entered with IN_PROGRESS, the first line is
stamped one 60-second sleep after entry and the stamps step by 60. -/
theorem ingestLoop_invariants (describe : Nat → IngStatus) :
    ∀ fuel st i res, ingestLoop describe st i fuel = some res →
      res.finalStatus ≠ .inProgress ∧
      (∀ c ∈ res.calls, ∃ j, c = RemoteCall.describeJob j) ∧
      res.calls.length = res.log.length ∧
      (∀ entry ∈ res.log.dropLast, entry.2 = .inProgress) ∧
      (res.log = [] ↔ st ≠ .inProgress) ∧
      (res.log = [] → res.finalStatus = st) ∧
      (res.log ≠ [] →
        res.log.getLast? = some (60 * (i + res.log.length), res.finalStatus)) ∧
      (∀ b ∈ res.log.head?, b.1 = 60 * (i + 1)) ∧
      List.Chain' (fun a b => b.1 = a.1 + 60) res.log := by
  intro fuel
  induction fuel with
  | zero =>
    intro st i res h
    by_cases hst : st = .inProgress
    · simp [ingestLoop, hst] at h
    · have hres : some (⟨[], st, []⟩ : IngestionPollResult) = some res := by
        simpa [ingestLoop, hst] using h
      obtain rfl := Option.some.inj hres
      exact ⟨hst, by simp, rfl, by simp, by simp [hst], fun _ => rfl,
        fun hne => absurd rfl hne, by simp, List.chain'_nil⟩
  | succ n ih =>
    intro st i res h
    by_cases hst : st = .inProgress
    · subst hst
      cases hrec : ingestLoop describe (describe i) (i + 1) n with
      | none => simp [ingestLoop, hrec] at h
      | some res' =>
        have hres : some (⟨(60 * (i + 1), describe i) :: res'.log, res'.finalStatus,
            RemoteCall.describeJob i :: res'.calls⟩ : IngestionPollResult) = some res := by
          simpa [ingestLoop, hrec] using h
        obtain rfl := Option.some.inj hres
        obtain ⟨q1, q2, q3, q4, q5, q6, q7, q8, q9⟩ := ih (describe i) (i + 1) res' hrec
        refine ⟨q1, ?_, ?_, ?_, ?_, ?_, ?_, ?_, ?_⟩
        · intro c hc
          rcases List.mem_cons.mp hc with rfl | hc'
          · exact ⟨i, rfl⟩
          · exact q2 c hc'
        · simp [q3]
        · intro entry hentry
          cases hlog : res'.log with
          | nil => rw [hlog] at hentry; simp at hentry
          | cons y ys =>
            rw [hlog, List.dropLast_cons₂] at hentry
            rcases List.mem_cons.mp hentry with rfl | h'
            · have hip : describe i = .inProgress := by
                by_contra hni
                rw [q5.mpr hni] at hlog
                cases hlog
              simpa using hip
            · rw [← hlog] at h'
              exact q4 entry h'
        · simp
        · intro hx
          cases hx
        · intro _
          cases hlog : res'.log with
          | nil =>
            have hfin : res'.finalStatus = describe i := q6 hlog
            simp [hlog, hfin, List.getLast?]
          | cons y ys =>
            have h7 := q7 (by rw [hlog]; exact List.cons_ne_nil y ys)
            rw [hlog] at h7
            simp only [hlog, List.getLast?_cons_cons, h7, List.length_cons]
            have harith : i + 1 + (ys.length + 1) = i + (ys.length + 1 + 1) := by omega
            rw [harith]
        · simp
        · rw [List.chain'_cons']
          refine ⟨?_, q9⟩
          intro b hb
          have := q8 b hb
          omega
    · have hres : some (⟨[], st, []⟩ : IngestionPollResult) = some res := by
        simpa [ingestLoop, hst] using h
      obtain rfl := Option.some.inj hres
      exact ⟨hst, by simp, rfl, by simp, by simp [hst], fun _ => rfl,
        fun hne => absurd rfl hne, by simp, List.chain'_nil⟩

/-- C9: whenever the ingestion polling cell terminates, it has polled at a
fixed 60-second cadence exactly while the status was IN_PROGRESS, stopped
at the first terminal status (which is the reported final status), printed
one timestamped status line per check (the initial line plus one per
describe call), and made no StartDataIngestionJob call — a FAILED job is
reported, never resubmitted. -/
theorem c9_ingestion_polling (describe : Nat → IngStatus) (init : IngStatus)
    (fuel : Nat) (res : IngestionPollResult)
    (h : pollDataIngestion describe init fuel = some res) :
    res.finalStatus ≠ .inProgress ∧
    RemoteCall.startJob ∉ res.calls ∧
    (∀ c ∈ res.calls, ∃ j, c = RemoteCall.describeJob j) ∧
    res.log.length = res.calls.length + 1 ∧
    res.log.head? = some (0, init) ∧
    (∀ entry ∈ res.log.dropLast, entry.2 = .inProgress) ∧
    (res.log.getLast? = some (60 * res.calls.length, res.finalStatus) ∨
      (res.calls = [] ∧ res.finalStatus = init)) ∧
    List.Chain' (fun a b => b.1 = a.1 + 60) res.log := by
  obtain ⟨r, hr, hmap⟩ := Option.map_eq_some'.mp h
  obtain ⟨q1, q2, q3, q4, q5, q6, q7, q8, q9⟩ := ingestLoop_invariants describe fuel init 0 r hr
  subst hmap
  refine ⟨q1, ?_, q2, by simp [q3], rfl, ?_, ?_, ?_⟩
  · intro hmem
    obtain ⟨j, hj⟩ := q2 _ hmem
    cases hj
  · intro entry hentry
    cases hlog : r.log with
    | nil => rw [hlog] at hentry; simp at hentry
    | cons y ys =>
      rw [hlog, List.dropLast_cons₂] at hentry
      rcases List.mem_cons.mp hentry with rfl | h'
      · have hip : init = .inProgress := by
          by_contra hni
          rw [q5.mpr hni] at hlog
          cases hlog
        simpa using hip
      · rw [← hlog] at h'
        exact q4 entry h'
  · cases hlog : r.log with
    | nil =>
      right
      refine ⟨?_, q6 hlog⟩
      have := q3
      rw [hlog] at this
      exact List.length_eq_zero.mp this
    | cons y ys =>
      left
      have h7 := q7 (by rw [hlog]; exact List.cons_ne_nil y ys)
      rw [hlog] at h7
      simp only [hlog, List.getLast?_cons_cons, h7, q3, List.length_cons]
      simp
  · rw [List.chain'_cons']
    refine ⟨?_, q9⟩
    intro b hb
    have := q8 b hb
    omega

/-- Witness for C9 on the describe stream that turns SUCCESS at the third
check. -/
theorem c9_ingestion_polling_witness :
    pollDataIngestion describe9 .inProgress 5 = some res9 ∧
    res9.finalStatus ≠ .inProgress ∧
    RemoteCall.startJob ∉ res9.calls ∧
    res9.log.length = res9.calls.length + 1 := by
  have heq : pollDataIngestion describe9 .inProgress 5 = some res9 := by decide
  have h := c9_ingestion_polling describe9 .inProgress 5 res9 heq
  exact ⟨heq, h.1, h.2.1, h.2.2.2.1⟩

end L4E
